/-
Verification of the CoRec occupancy tracker's core: the storage engine
(schema discipline, upsert/dedup primitives), the aggregation engine
(optimal-times query) and the ingestion coordinator, shallowly embedded
from the JavaScript sources (db.js, fetch.js, scheduler.js).

Modelling conventions:
* SQLite tables are Lean lists of row structures, in insertion order;
  AUTOINCREMENT ids are tracked explicitly where the code depends on them.
* TEXT timestamps produced by datetime('now') / Date.now() are modelled as
  an abstract integer clock (milliseconds), passed explicitly to every
  operation that reads the wall clock.
* The api_ts TEXT column always holds an ISO-8601 timestamp; it is modelled
  as its parsed calendar components, which is what SQLite's strftime reads.
* JavaScript number arithmetic is modelled exactly over ℤ/ℚ.
* SQL queries are modelled by list transformations with the same semantics;
  ORDER BY is modelled by a sort, LIMIT by List.take.
-/
import Mathlib

namespace CorecTracker

/-- Parsed calendar components of an ISO-8601 timestamp string, the view of
the api_ts TEXT column that SQLite's strftime('%w' / '%H', ...) exposes. -/
structure Timestamp where
  year : ℤ
  month : ℤ
  day : ℤ
  hour : ℤ
  minute : ℤ
  second : ℤ
deriving DecidableEq, Repr

/-- Day of week, 0 = Sunday .. 6 = Saturday, of a calendar date: the value of
SQLite's strftime('%w', api_ts).  Uses the standard days-from-civil-epoch
computation; 1970-01-01 (day 0 of the epoch) was a Thursday (= 4). -/
def dayOfWeek (t : Timestamp) : ℤ :=
  let y := if t.month ≤ 2 then t.year - 1 else t.year
  let era := Int.fdiv y 400
  let yoe := y - era * 400
  let doy := Int.fdiv (153 * (t.month + (if t.month > 2 then -3 else 9)) + 2) 5 + t.day - 1
  let doe := yoe * 365 + Int.fdiv yoe 4 - Int.fdiv yoe 100 + doy
  Int.emod (era * 146097 + doe - 719468 + 4) 7

/-- One facility-state record of the inbound API payload (field names are the
bit-exact external contract consumed by the coordinator). -/
structure LocRecord where
  LocationId : ℤ
  LocationName : String
  TotalCapacity : ℤ
  LastCount : ℤ
  IsClosed : Bool
  FacilityId : ℤ
  FacilityName : String
  MinCapacityRange : ℤ
  MaxCapacityRange : ℤ
  MinColor : String
  MaxColor : String
  LastUpdatedDateAndTime : Timestamp
deriving DecidableEq, Repr

/-- Whitespace as removed by JavaScript String.prototype.trim (restricted to
the four ASCII whitespace characters that occur in practice). -/
def isJsSpace (c : Char) : Bool := c = ' ' || c = '\t' || c = '\n' || c = '\r'

/-- JavaScript LocationName.trim(): strip leading and trailing whitespace. -/
def trimString (s : String) : String :=
  String.mk (((s.data.dropWhile isJsSpace).reverse.dropWhile isJsSpace).reverse)

/-- JavaScript Math.round on an exact rational: floor(x + 1/2). -/
def jsRound (q : ℚ) : ℤ := ⌊q + 1/2⌋

/-- The occupancy-percentage computation of insertReading, stated as the
source writes it: TotalCapacity > 0 ? Math.round((LastCount / TotalCapacity) * 100) : 0. -/
def pctSpec (c cap : ℤ) : ℤ :=
  if 0 < cap then jsRound ((c : ℚ) / (cap : ℚ) * 100) else 0

/-- The same computation in executable integer arithmetic:
floor(100*c/cap + 1/2) = fdiv (200*c + cap) (2*cap) for cap > 0.
(Proved equal to pctSpec in pct_eq_pctSpec.) -/
def pctOf (c cap : ℤ) : ℤ :=
  if 0 < cap then Int.fdiv (200 * c + cap) (2 * cap) else 0

/-- A row of the locations table. -/
structure LocationRow where
  location_id : ℤ
  location_name : String
  total_capacity : ℤ
  facility_id : ℤ
  facility_name : String
  min_capacity_range : ℤ
  max_capacity_range : ℤ
  min_color : String
  max_color : String
  created_at : ℤ
  updated_at : ℤ
deriving DecidableEq, Repr

/-- A row of the readings table (is_closed stored as the INTEGER 0/1 the
schema declares). -/
structure ReadingRow where
  id : ℕ
  location_id : ℤ
  last_count : ℤ
  capacity : ℤ
  pct : ℤ
  is_closed : ℤ
  api_ts : Timestamp
  ts : ℤ
deriving DecidableEq, Repr

/-- A row of the snapshots table (data holds the serialized full payload). -/
structure SnapshotRow where
  ts : ℤ
  data : List LocRecord
  location_count : ℕ
  total_people : ℤ
deriving DecidableEq, Repr

/-- A row of the fetch_log table (success stored as INTEGER 0/1). -/
structure FetchLogRow where
  success : ℤ
  locations_fetched : ℤ
  new_readings : ℤ
  error_msg : Option String
deriving DecidableEq, Repr

/-- The whole persistent store: the four tables, plus the next AUTOINCREMENT
id of the readings table. -/
structure DbState where
  locations : List LocationRow
  readings : List ReadingRow
  snapshots : List SnapshotRow
  fetch_log : List FetchLogRow
  nextReadingId : ℕ
deriving DecidableEq, Repr

/-- The freshly initialised database (initSchema on a new file). -/
def emptyDb : DbState := ⟨[], [], [], [], 0⟩

/-- The DO UPDATE arm of upsertLocation's ON CONFLICT clause: overwrite the
nine mutable fields and refresh updated_at, keeping everything else. -/
def applyLocUpdate (loc : LocRecord) (now : ℤ) (l : LocationRow) : LocationRow :=
  { l with
    location_name := trimString loc.LocationName
    total_capacity := loc.TotalCapacity
    facility_id := loc.FacilityId
    facility_name := loc.FacilityName
    min_capacity_range := loc.MinCapacityRange
    max_capacity_range := loc.MaxCapacityRange
    min_color := loc.MinColor
    max_color := loc.MaxColor
    updated_at := now }

/-- The INSERT arm of upsertLocation: a fresh row, created_at and updated_at
both set to datetime('now'). -/
def newLocationRow (loc : LocRecord) (now : ℤ) : LocationRow :=
  { location_id := loc.LocationId
    location_name := trimString loc.LocationName
    total_capacity := loc.TotalCapacity
    facility_id := loc.FacilityId
    facility_name := loc.FacilityName
    min_capacity_range := loc.MinCapacityRange
    max_capacity_range := loc.MaxCapacityRange
    min_color := loc.MinColor
    max_color := loc.MaxColor
    created_at := now
    updated_at := now }

/-- db.js upsertLocation: INSERT ... ON CONFLICT(location_id) DO UPDATE. -/
def upsertLocation (loc : LocRecord) (now : ℤ) (st : DbState) : DbState :=
  if ∃ l ∈ st.locations, l.location_id = loc.LocationId then
    { st with locations := st.locations.map fun l =>
        if l.location_id = loc.LocationId then applyLocUpdate loc now l else l }
  else
    { st with locations := st.locations ++ [newLocationRow loc now] }

/-- The deduplication key of the readings table: does a row with this
(location_id, api_ts) pair already exist?  (idx_unique_reading) -/
def hasReadingKey (st : DbState) (i : ℤ) (t : Timestamp) : Prop :=
  ∃ r ∈ st.readings, r.location_id = i ∧ r.api_ts = t

instance (st : DbState) (i : ℤ) (t : Timestamp) : Decidable (hasReadingKey st i t) :=
  List.decidableBEx _ st.readings

/-- The row INSERTed by insertReading for a record, given the ingestion clock
and the next AUTOINCREMENT id. -/
def mkReadingRow (loc : LocRecord) (now : ℤ) (rid : ℕ) : ReadingRow :=
  { id := rid
    location_id := loc.LocationId
    last_count := loc.LastCount
    capacity := loc.TotalCapacity
    pct := pctOf loc.LastCount loc.TotalCapacity
    is_closed := if loc.IsClosed then 1 else 0
    api_ts := loc.LastUpdatedDateAndTime
    ts := now }

/-- db.js insertReading: INSERT OR IGNORE keyed by (location_id, api_ts);
returns true iff a new row was actually inserted (result.changes > 0). -/
def insertReading (loc : LocRecord) (now : ℤ) (st : DbState) : DbState × Bool :=
  if hasReadingKey st loc.LocationId loc.LastUpdatedDateAndTime then
    (st, false)
  else
    ({ st with
        readings := st.readings ++ [mkReadingRow loc now st.nextReadingId]
        nextReadingId := st.nextReadingId + 1 }, true)

/-- db.js saveSnapshot: one row holding the serialized batch, its length and
the summed LastCount over all non-closed records. -/
def saveSnapshot (data : List LocRecord) (now : ℤ) (st : DbState) : DbState :=
  { st with snapshots := st.snapshots ++
      [{ ts := now
         data := data
         location_count := data.length
         total_people := (data.filter fun l => !l.IsClosed).foldl (fun sum l => sum + l.LastCount) 0 }] }

/-- db.js shouldSaveSnapshot: true iff the snapshots table is empty or its
most recent row (highest id = last appended) is strictly older than one hour
(3600000 ms) before the current time. -/
def shouldSaveSnapshot (st : DbState) (now : ℤ) : Bool :=
  match st.snapshots.getLast? with
  | none => true
  | some last => decide (last.ts < now - 3600000)

/-- db.js logFetch: append one fetch_log row (success stored as 0/1). -/
def logFetch (success : Bool) (locationsFetched newReadings : ℤ)
    (errorMsg : Option String) (st : DbState) : DbState :=
  { st with fetch_log := st.fetch_log ++
      [{ success := if success then 1 else 0
         locations_fetched := locationsFetched
         new_readings := newReadings
         error_msg := errorMsg }] }

/-- The per-record loop of fetch.js fetchOccupancy: upsertLocation then
insertReading for each record, counting a reading as new exactly when
insertReading returns true. -/
def ingestBatch : List LocRecord → ℤ → DbState → DbState × ℕ
  | [], _, st => (st, 0)
  | loc :: rest, now, st =>
    let p := insertReading loc now (upsertLocation loc now st)
    let q := ingestBatch rest now p.1
    (q.1, (if p.2 then 1 else 0) + q.2)

/-- The per-record loop of scheduler.js fetchAndStore: upsertLocation then
insertReading inside a try/catch whose catch is annotated "// Duplicate" —
but insertReading never throws on a duplicate, so newReadings is incremented
unconditionally for every record. -/
def schedulerIngest : List LocRecord → ℤ → DbState → DbState × ℕ
  | [], _, st => (st, 0)
  | loc :: rest, now, st =>
    let st2 := (insertReading loc now (upsertLocation loc now st)).1
    let q := schedulerIngest rest now st2
    (q.1, 1 + q.2)

/-- The JSON body of a 2xx response, as fetchOccupancy sees it after
response.json(): either an array of facility-state records (possibly empty)
or some non-array JSON value. -/
inductive ApiPayload where
  | nonArray : ApiPayload
  | arr : List LocRecord → ApiPayload
deriving DecidableEq, Repr

/-- The outcome fetchOccupancy reports to its one-shot caller. -/
structure CycleResult where
  success : Bool
  newReadings : ℕ
  error : Option String
deriving DecidableEq, Repr

/-- fetch.js fetchOccupancy.  The argument models everything up to and
including response.json(): Except.error e is any exception raised by the
network fetch, the non-2xx check or JSON parsing, with message e.  The body
then re-raises on a non-array payload, ingests the batch, saves a snapshot
when due and logs the attempt.  The catch block logs a failed attempt
best-effort (logFails = true models that logging write itself throwing, which
is swallowed) and reports the original error. -/
def fetchOccupancy (outcome : Except String ApiPayload) (logFails : Bool)
    (now : ℤ) (st : DbState) : CycleResult × DbState :=
  let attempt : Except String (DbState × ℕ) :=
    match outcome with
    | .error e => .error e
    | .ok .nonArray => .error "Invalid API response: expected array"
    | .ok (.arr records) =>
      let p := ingestBatch records now st
      let st2 := if shouldSaveSnapshot p.1 now then saveSnapshot records now p.1 else p.1
      let st3 := logFetch true (records.length : ℤ) (p.2 : ℤ) none st2
      .ok (st3, p.2)
  match attempt with
  | .ok (stOk, n) => ({ success := true, newReadings := n, error := none }, stOk)
  | .error e =>
    let stErr := if logFails then st else logFetch false 0 0 (some e) st
    ({ success := false, newReadings := 0, error := some e }, stErr)

/-- The process exit status of the one-shot invocation: 0 when
result.success, 1 otherwise. -/
def exitCode (r : CycleResult) : ℕ := if r.success then 0 else 1

/-- SQL JOIN readings r JOIN locations l ON r.location_id = l.location_id:
every reading paired with every matching location row (the PRIMARY KEY makes
the match unique in any state the engine builds). -/
def joinedRows (st : DbState) : List (ReadingRow × LocationRow) :=
  st.readings.flatMap fun r =>
    (st.locations.filter fun l => decide (l.location_id = r.location_id)).map fun l => (r, l)

/-- SQL LIKE with a %pat% pattern: case-insensitive substring match. -/
def nameLike (pat s : String) : Bool :=
  decide ((pat.data.map Char.toLower) <:+: (s.data.map Char.toLower))

/-- The WHERE clause of getOptimalTimes: non-closed readings, optionally
restricted to location names LIKE the filter. -/
def matchesWhere (filt : Option String) (rl : ReadingRow × LocationRow) : Bool :=
  decide (rl.1.is_closed = 0) &&
    (match filt with
     | none => true
     | some pat => nameLike pat rl.2.location_name)

/-- The GROUP BY key of getOptimalTimes: (l.location_id,
strftime('%w', r.api_ts), strftime('%H', r.api_ts)). -/
def keyOf (rl : ReadingRow × LocationRow) : ℤ × ℤ × ℤ :=
  (rl.2.location_id, dayOfWeek rl.1.api_ts, rl.1.api_ts.hour)

/-- SQLite ROUND on an exact rational num/den (den > 0): round half away
from zero, returned as an integer. -/
def roundHalfAway (num den : ℤ) : ℤ :=
  if 0 ≤ num then Int.fdiv (2 * num + den) (2 * den)
  else -(Int.fdiv (2 * (-num) + den) (2 * den))

/-- One result row of getOptimalTimes.  avg_pct_tenths holds
ROUND(AVG(r.pct), 1) exactly, scaled by 10 (tenths of a percent), so the
one-decimal average is represented without rounding error. -/
structure OptimalRow where
  location_name : String
  total_capacity : ℤ
  day_of_week : ℤ
  hour : ℤ
  avg_pct_tenths : ℤ
  avg_count : ℤ
  min_pct : ℤ
  max_pct : ℤ
  samples : ℕ
deriving DecidableEq, Repr

/-- The SELECT aggregates of getOptimalTimes over one non-empty group (the
bare columns location_name / total_capacity / day_of_week / hour are constant
on the group and taken from its first row). -/
def aggregateGroup : List (ReadingRow × LocationRow) → OptimalRow
  | [] => ⟨"", 0, 0, 0, 0, 0, 0, 0, 0⟩
  | rl :: rest =>
    let rows := rl :: rest
    let n : ℤ := (rows.length : ℤ)
    let sumPct := (rows.map fun x => x.1.pct).sum
    let sumCount := (rows.map fun x => x.1.last_count).sum
    { location_name := rl.2.location_name
      total_capacity := rl.2.total_capacity
      day_of_week := dayOfWeek rl.1.api_ts
      hour := rl.1.api_ts.hour
      avg_pct_tenths := roundHalfAway (10 * sumPct) n
      avg_count := roundHalfAway sumCount n
      min_pct := (rows.map fun x => x.1.pct).foldl min rl.1.pct
      max_pct := (rows.map fun x => x.1.pct).foldl max rl.1.pct
      samples := rows.length }

/-- The grouped rows of getOptimalTimes before HAVING / ORDER BY / LIMIT:
one aggregate row per distinct (location_id, day_of_week, hour) key among
the WHERE-filtered joined rows. -/
def optimalGroups (filt : Option String) (st : DbState) : List OptimalRow :=
  let rows := (joinedRows st).filter (matchesWhere filt)
  ((rows.map keyOf).dedup).map fun k =>
    aggregateGroup (rows.filter fun rl => decide (keyOf rl = k))

/-- ORDER BY avg_pct ASC as a relation on result rows (ordering by the
tenths-scaled average is ordering by the rounded average). -/
def byAvgPct (a b : OptimalRow) : Prop := a.avg_pct_tenths ≤ b.avg_pct_tenths

instance : DecidableRel byAvgPct :=
  fun a b => inferInstanceAs (Decidable (a.avg_pct_tenths ≤ b.avg_pct_tenths))

instance : IsTotal OptimalRow byAvgPct := ⟨fun a b => Int.le_total _ _⟩

instance : IsTrans OptimalRow byAvgPct := ⟨fun _ _ _ => le_trans⟩

/-- getOptimalTimes after HAVING samples >= 2 and ORDER BY avg_pct ASC,
before LIMIT. -/
def optimalCandidates (filt : Option String) (st : DbState) : List OptimalRow :=
  List.insertionSort byAvgPct ((optimalGroups filt st).filter fun g => decide (2 ≤ g.samples))

/-- db.js getOptimalTimes(locationName, limit): grouped non-closed readings,
HAVING samples >= 2, ORDER BY avg_pct ASC, LIMIT ?.  The JavaScript default
for limit is 20. -/
def getOptimalTimes (filt : Option String) (limit : ℕ) (st : DbState) : List OptimalRow :=
  (optimalCandidates filt st).take limit

/-- A sequence of upsertLocation calls, each with its own wall-clock value,
applied left to right. -/
def applyUpserts : List (LocRecord × ℤ) → DbState → DbState
  | [], st => st
  | c :: rest, st => applyUpserts rest (upsertLocation c.1 c.2 st)

/-- The last call of a sequence whose record carries the given location id. -/
def lastFor (i : ℤ) (calls : List (LocRecord × ℤ)) : Option (LocRecord × ℤ) :=
  (calls.filter fun c => decide (c.1.LocationId = i)).getLast?

/-- The mutable-field contents a call (record, clock) determines on the
stored row: the nine mutable columns taken from the record (display name
trimmed, exactly as upsertLocation stores it) and updated_at refreshed. -/
def mutFieldsEq (loc : LocRecord) (now : ℤ) (r : LocationRow) : Prop :=
  r.location_id = loc.LocationId ∧
  r.location_name = trimString loc.LocationName ∧
  r.total_capacity = loc.TotalCapacity ∧
  r.facility_id = loc.FacilityId ∧
  r.facility_name = loc.FacilityName ∧
  r.min_capacity_range = loc.MinCapacityRange ∧
  r.max_capacity_range = loc.MaxCapacityRange ∧
  r.min_color = loc.MinColor ∧
  r.max_color = loc.MaxColor ∧
  r.updated_at = now

/-- A concrete facility-state record, for closed test instances. -/
def sampleRec (i : ℤ) (name : String) (cap count : ℤ) (closed : Bool)
    (t : Timestamp) : LocRecord :=
  { LocationId := i
    LocationName := name
    TotalCapacity := cap
    LastCount := count
    IsClosed := closed
    FacilityId := 1
    FacilityName := "CoRec"
    MinCapacityRange := 40
    MaxCapacityRange := 70
    MinColor := "green"
    MaxColor := "red"
    LastUpdatedDateAndTime := t }

/-- Monday 2025-10-06 14:30. -/
def tsMon1430 : Timestamp := ⟨2025, 10, 6, 14, 30, 0⟩

/-- Monday 2025-10-13 14:45 (the following week, same day-of-week and hour). -/
def tsMon1445 : Timestamp := ⟨2025, 10, 13, 14, 45, 0⟩

/-- Tuesday 2025-10-07 10:00. -/
def tsTue1000 : Timestamp := ⟨2025, 10, 7, 10, 0, 0⟩

/-- A one-record batch: location 1 at 50/100, observed Monday 14:30. -/
def batchOne : List LocRecord := [sampleRec 1 "Colby Fitness" 100 50 false tsMon1430]

/-- Records giving location 1 a two-sample (Monday, 14:00) group and
location 2 a one-sample (Tuesday, 10:00) group. -/
def batchFloor : List LocRecord :=
  [sampleRec 1 "Colby Fitness" 100 40 false tsMon1430,
   sampleRec 1 "Colby Fitness" 100 60 false tsMon1445,
   sampleRec 2 "Lower Gym" 50 10 false tsTue1000]

/-- The database after ingesting batchFloor into a fresh store. -/
def stFloor : DbState := (ingestBatch batchFloor 0 emptyDb).1

/-- Records giving one location three two-sample hour groups with average
percentages 80, 45 and 10, deliberately listed with the busiest group first. -/
def batchOrder : List LocRecord :=
  [sampleRec 1 "Colby Fitness" 100 80 false ⟨2025, 10, 6, 8, 0, 0⟩,
   sampleRec 1 "Colby Fitness" 100 80 false ⟨2025, 10, 6, 8, 30, 0⟩,
   sampleRec 1 "Colby Fitness" 100 45 false ⟨2025, 10, 6, 9, 0, 0⟩,
   sampleRec 1 "Colby Fitness" 100 45 false ⟨2025, 10, 6, 9, 30, 0⟩,
   sampleRec 1 "Colby Fitness" 100 10 false ⟨2025, 10, 6, 10, 0, 0⟩,
   sampleRec 1 "Colby Fitness" 100 10 false ⟨2025, 10, 6, 10, 30, 0⟩]

/-- The database after ingesting batchOrder into a fresh store. -/
def stOrder : DbState := (ingestBatch batchOrder 0 emptyDb).1

end CorecTracker

namespace CorecTracker

/-! ### Storage-engine lemmas -/

theorem applyLocUpdate_location_id (loc : LocRecord) (now : ℤ) (l : LocationRow) :
    (applyLocUpdate loc now l).location_id = l.location_id := rfl

theorem applyLocUpdate_created_at (loc : LocRecord) (now : ℤ) (l : LocationRow) :
    (applyLocUpdate loc now l).created_at = l.created_at := rfl

theorem upsertLocation_readings (loc : LocRecord) (now : ℤ) (st : DbState) :
    (upsertLocation loc now st).readings = st.readings := by
  unfold upsertLocation
  split <;> rfl

theorem upsertLocation_nextReadingId (loc : LocRecord) (now : ℤ) (st : DbState) :
    (upsertLocation loc now st).nextReadingId = st.nextReadingId := by
  unfold upsertLocation
  split <;> rfl

theorem hasReadingKey_upsert (loc : LocRecord) (now : ℤ) (st : DbState) (i : ℤ) (t : Timestamp) :
    hasReadingKey (upsertLocation loc now st) i t ↔ hasReadingKey st i t := by
  unfold hasReadingKey
  rw [upsertLocation_readings]

theorem insertReading_of_hasKey (loc : LocRecord) (now : ℤ) (st : DbState)
    (h : hasReadingKey st loc.LocationId loc.LastUpdatedDateAndTime) :
    insertReading loc now st = (st, false) := by
  unfold insertReading
  rw [if_pos h]

theorem insertReading_of_not_hasKey (loc : LocRecord) (now : ℤ) (st : DbState)
    (h : ¬ hasReadingKey st loc.LocationId loc.LastUpdatedDateAndTime) :
    insertReading loc now st =
      ({ st with
          readings := st.readings ++ [mkReadingRow loc now st.nextReadingId]
          nextReadingId := st.nextReadingId + 1 }, true) := by
  unfold insertReading
  rw [if_neg h]

theorem insertReading_readings_mono (loc : LocRecord) (now : ℤ) (st : DbState)
    {r : ReadingRow} (h : r ∈ st.readings) : r ∈ (insertReading loc now st).1.readings := by
  unfold insertReading
  split
  · exact h
  · exact List.mem_append_left _ h

theorem hasReadingKey_insert_mono (loc : LocRecord) (now : ℤ) (st : DbState) {i : ℤ}
    {t : Timestamp} (h : hasReadingKey st i t) :
    hasReadingKey (insertReading loc now st).1 i t := by
  obtain ⟨r, hr, h1, h2⟩ := h
  exact ⟨r, insertReading_readings_mono loc now st hr, h1, h2⟩

theorem hasReadingKey_insert_self (loc : LocRecord) (now : ℤ) (st : DbState) :
    hasReadingKey (insertReading loc now st).1 loc.LocationId loc.LastUpdatedDateAndTime := by
  unfold insertReading
  split
  · assumption
  · exact ⟨mkReadingRow loc now st.nextReadingId,
      List.mem_append_right _ (List.mem_singleton_self _), rfl, rfl⟩

theorem ingestBatch_readings_mono (B : List LocRecord) (now : ℤ) (st : DbState)
    {r : ReadingRow} (h : r ∈ st.readings) : r ∈ (ingestBatch B now st).1.readings := by
  induction B generalizing st with
  | nil => exact h
  | cons loc rest ih =>
    simp only [ingestBatch]
    exact ih _ (insertReading_readings_mono _ _ _
      ((upsertLocation_readings loc now st) ▸ h))

theorem hasReadingKey_ingest_mono (B : List LocRecord) (now : ℤ) (st : DbState) {i : ℤ}
    {t : Timestamp} (h : hasReadingKey st i t) :
    hasReadingKey (ingestBatch B now st).1 i t := by
  obtain ⟨r, hr, h1, h2⟩ := h
  exact ⟨r, ingestBatch_readings_mono B now st hr, h1, h2⟩

theorem ingestBatch_hasAll (B : List LocRecord) (now : ℤ) (st : DbState) :
    ∀ loc ∈ B, hasReadingKey (ingestBatch B now st).1 loc.LocationId loc.LastUpdatedDateAndTime := by
  induction B generalizing st with
  | nil => intro loc h; cases h
  | cons hd rest ih =>
    intro loc hmem
    rcases List.mem_cons.mp hmem with h | h
    · subst h
      simp only [ingestBatch]
      exact hasReadingKey_ingest_mono rest now _ (hasReadingKey_insert_self loc now _)
    · simp only [ingestBatch]
      exact ih _ loc h

theorem ingestBatch_of_hasAll (B : List LocRecord) (now : ℤ) (st : DbState)
    (h : ∀ loc ∈ B, hasReadingKey st loc.LocationId loc.LastUpdatedDateAndTime) :
    (ingestBatch B now st).1.readings = st.readings ∧ (ingestBatch B now st).2 = 0 := by
  induction B generalizing st with
  | nil => exact ⟨rfl, rfl⟩
  | cons hd rest ih =>
    have h0 : hasReadingKey (upsertLocation hd now st) hd.LocationId hd.LastUpdatedDateAndTime :=
      (hasReadingKey_upsert hd now st _ _).mpr (h hd (List.mem_cons_self hd rest))
    have hins : insertReading hd now (upsertLocation hd now st) = (upsertLocation hd now st, false) :=
      insertReading_of_hasKey hd now _ h0
    have hrest : ∀ loc ∈ rest,
        hasReadingKey (upsertLocation hd now st) loc.LocationId loc.LastUpdatedDateAndTime :=
      fun loc hm => (hasReadingKey_upsert hd now st _ _).mpr (h loc (List.mem_cons_of_mem hd hm))
    have := ih (upsertLocation hd now st) hrest
    simp only [ingestBatch, hins]
    exact ⟨this.1.trans (upsertLocation_readings hd now st), by simp [this.2]⟩

end CorecTracker
namespace CorecTracker

/-! ### Claim theorems -/

/-- C1: re-ingesting any batch with unchanged source timestamps never adds a
Reading row, and the second pass of the fetch coordinator's loop counts 0 new
readings, with no error (the loop is total).  However the scheduler loop
(scheduler.js fetchAndStore) increments its new-readings counter
unconditionally, so on re-ingesting the already-seen one-record batch
batchOne it reports 1 new reading where the specified behaviour is 0 — shown
by the closed second conjunct. -/
theorem ingest_idempotent_but_scheduler_overcounts :
    (∀ (B : List LocRecord) (t1 t2 : ℤ) (st0 : DbState),
      (ingestBatch B t2 (ingestBatch B t1 st0).1).1.readings
          = (ingestBatch B t1 st0).1.readings ∧
      (ingestBatch B t2 (ingestBatch B t1 st0).1).2 = 0) ∧
    ((schedulerIngest batchOne 1 (ingestBatch batchOne 0 emptyDb).1).1.readings.length
        = (ingestBatch batchOne 0 emptyDb).1.readings.length ∧
      (schedulerIngest batchOne 1 (ingestBatch batchOne 0 emptyDb).1).2 = 1) := by
  constructor
  · intro B t1 t2 st0
    exact ingestBatch_of_hasAll B t2 (ingestBatch B t1 st0).1
      (ingestBatch_hasAll B t1 st0)
  · exact ⟨by decide, by decide⟩

end CorecTracker
namespace CorecTracker

/-- C2: two insertReading calls with the identical (location id, source
timestamp) key store exactly one row — the first call's values, including its
count — with the first call returning true, the second returning false and
changing nothing; both calls are total, so no exception is raised. -/
theorem insertReading_unique_key (loc1 loc2 : LocRecord) (t1 t2 : ℤ) (st : DbState)
    (hkey : ¬ hasReadingKey st loc1.LocationId loc1.LastUpdatedDateAndTime)
    (hid : loc2.LocationId = loc1.LocationId)
    (hts : loc2.LastUpdatedDateAndTime = loc1.LastUpdatedDateAndTime) :
    (insertReading loc1 t1 st).2 = true ∧
    (insertReading loc1 t1 st).1.readings
        = st.readings ++ [mkReadingRow loc1 t1 st.nextReadingId] ∧
    (mkReadingRow loc1 t1 st.nextReadingId).last_count = loc1.LastCount ∧
    (mkReadingRow loc1 t1 st.nextReadingId).location_id = loc1.LocationId ∧
    (mkReadingRow loc1 t1 st.nextReadingId).api_ts = loc1.LastUpdatedDateAndTime ∧
    insertReading loc2 t2 (insertReading loc1 t1 st).1
        = ((insertReading loc1 t1 st).1, false) ∧
    (insertReading loc1 t1 st).1.readings.length = st.readings.length + 1 := by
  have h1 := insertReading_of_not_hasKey loc1 t1 st hkey
  refine ⟨by rw [h1], by rw [h1], rfl, rfl, rfl, ?_, by rw [h1]; simp⟩
  apply insertReading_of_hasKey
  rw [hid, hts]
  exact hasReadingKey_insert_self loc1 t1 st

/-- C2 witness: a fresh store, then the same key (location 1, Monday 14:30)
inserted twice with counts 50 and 60. -/
theorem insertReading_unique_key_witness :
    (insertReading (sampleRec 1 "Colby Fitness" 100 50 false tsMon1430) 0 emptyDb).2 = true ∧
    (insertReading (sampleRec 1 "Colby Fitness" 100 50 false tsMon1430) 0 emptyDb).1.readings
        = emptyDb.readings ++ [mkReadingRow (sampleRec 1 "Colby Fitness" 100 50 false tsMon1430) 0 emptyDb.nextReadingId] ∧
    (mkReadingRow (sampleRec 1 "Colby Fitness" 100 50 false tsMon1430) 0 emptyDb.nextReadingId).last_count
        = (sampleRec 1 "Colby Fitness" 100 50 false tsMon1430).LastCount ∧
    (mkReadingRow (sampleRec 1 "Colby Fitness" 100 50 false tsMon1430) 0 emptyDb.nextReadingId).location_id
        = (sampleRec 1 "Colby Fitness" 100 50 false tsMon1430).LocationId ∧
    (mkReadingRow (sampleRec 1 "Colby Fitness" 100 50 false tsMon1430) 0 emptyDb.nextReadingId).api_ts
        = (sampleRec 1 "Colby Fitness" 100 50 false tsMon1430).LastUpdatedDateAndTime ∧
    insertReading (sampleRec 1 "Colby Fitness" 100 60 false tsMon1430) 5
        (insertReading (sampleRec 1 "Colby Fitness" 100 50 false tsMon1430) 0 emptyDb).1
        = ((insertReading (sampleRec 1 "Colby Fitness" 100 50 false tsMon1430) 0 emptyDb).1, false) ∧
    (insertReading (sampleRec 1 "Colby Fitness" 100 50 false tsMon1430) 0 emptyDb).1.readings.length
        = emptyDb.readings.length + 1 :=
  insertReading_unique_key _ _ 0 5 emptyDb (by decide) (by decide) (by decide)

end CorecTracker
namespace CorecTracker

/-- The executable integer percentage agrees with the source formula
Math.round((count / capacity) * 100) over exact rationals, for positive
capacity. -/
theorem pct_eq_pctSpec (c cap : ℤ) : pctOf c cap = pctSpec c cap := by
  unfold pctOf pctSpec
  split
  · rename_i h
    have h2 : (0 : ℤ) < 2 * cap := by omega
    have hcap : (cap : ℚ) ≠ 0 := Int.cast_ne_zero.mpr (by omega)
    have hn : ((2 * cap).toNat : ℤ) = 2 * cap := Int.toNat_of_nonneg h2.le
    have hnq : (((2 * cap).toNat : ℕ) : ℚ) = ((2 * cap : ℤ) : ℚ) := by exact_mod_cast hn
    have key : (c : ℚ) / (cap : ℚ) * 100 + 1/2
        = ((200 * c + cap : ℤ) : ℚ) / (((2 * cap).toNat : ℕ) : ℚ) := by
      rw [hnq]
      push_cast
      field_simp
      ring
    rw [jsRound, key, Rat.floor_intCast_div_natCast, Int.fdiv_eq_ediv _ h2.le]
    congr 1
    exact hn.symm
  · rfl

/-- C3: the stored occupancy percentage is round(count/capacity*100) for
positive capacity and 0 for zero or negative capacity; over-capacity is not
clamped (101/100 gives 101), and a successful insertReading stores exactly
this value. -/
theorem percentage_computation :
    (∀ c cap : ℤ, 0 < cap → pctOf c cap = jsRound ((c : ℚ) / (cap : ℚ) * 100)) ∧
    (∀ c cap : ℤ, cap ≤ 0 → pctOf c cap = 0) ∧
    pctOf 0 0 = 0 ∧ pctOf 50 100 = 50 ∧ pctOf 101 100 = 101 ∧
    (∀ (loc : LocRecord) (t : ℤ) (st : DbState),
      (insertReading loc t st).2 = true →
      (insertReading loc t st).1.readings
          = st.readings ++ [mkReadingRow loc t st.nextReadingId] ∧
      (mkReadingRow loc t st.nextReadingId).pct
          = pctOf loc.LastCount loc.TotalCapacity) := by
  refine ⟨?_, ?_, by decide, by decide, by decide, ?_⟩
  · intro c cap h
    rw [pct_eq_pctSpec]
    unfold pctSpec
    rw [if_pos h]
  · intro c cap h
    unfold pctOf
    rw [if_neg (by omega)]
  · intro loc t st h
    by_cases hk : hasReadingKey st loc.LocationId loc.LastUpdatedDateAndTime
    · rw [insertReading_of_hasKey loc t st hk] at h
      cases h
    · rw [insertReading_of_not_hasKey loc t st hk]
      exact ⟨rfl, rfl⟩

/-- C3 witness: capacity 0 and a tie-free positive case, plus a successful
insert whose stored pct is the computed percentage. -/
theorem percentage_computation_witness :
    pctOf 7 8 = jsRound ((7 : ℚ) / (8 : ℚ) * 100) ∧
    pctOf 7 (-2) = 0 ∧
    ((insertReading (sampleRec 1 "Colby Fitness" 100 50 false tsMon1430) 0 emptyDb).1.readings
        = emptyDb.readings ++ [mkReadingRow (sampleRec 1 "Colby Fitness" 100 50 false tsMon1430) 0 emptyDb.nextReadingId] ∧
      (mkReadingRow (sampleRec 1 "Colby Fitness" 100 50 false tsMon1430) 0 emptyDb.nextReadingId).pct
        = pctOf (sampleRec 1 "Colby Fitness" 100 50 false tsMon1430).LastCount
            (sampleRec 1 "Colby Fitness" 100 50 false tsMon1430).TotalCapacity) :=
  ⟨percentage_computation.1 7 8 (by decide),
   percentage_computation.2.1 7 (-2) (by decide),
   percentage_computation.2.2.2.2.2 _ 0 emptyDb (by decide)⟩

end CorecTracker
namespace CorecTracker

/-- C4 counterexample: an empty array is NOT a hard failure.  Feeding the
coordinator the empty payload on a fresh store yields a successful cycle
(exit status 0, a success row in fetch_log) and even saves a snapshot — so
processing does happen for an empty batch, contrary to the claim. -/
theorem empty_batch_is_accepted :
    (fetchOccupancy (.ok (.arr [])) false 0 emptyDb).1.success = true ∧
    (fetchOccupancy (.ok (.arr [])) false 0 emptyDb).1.error = none ∧
    exitCode (fetchOccupancy (.ok (.arr [])) false 0 emptyDb).1 = 0 ∧
    (fetchOccupancy (.ok (.arr [])) false 0 emptyDb).2.snapshots.length = 1 ∧
    (fetchOccupancy (.ok (.arr [])) false 0 emptyDb).2.fetch_log
      = [{ success := 1, locations_fetched := 0, new_readings := 0, error_msg := none }] := by
  refine ⟨by decide, by decide, by decide, by decide, by decide⟩

/-- C4 amended: the cycle validates only that the payload is an array.  A
non-array payload is a hard failure (failed cycle, original message, no
upsert, no reading, no snapshot), while an empty array is accepted and
processed as a successful cycle with 0 locations and 0 new readings. -/
theorem batch_validation :
    (∀ (logFails : Bool) (now : ℤ) (st : DbState),
      (fetchOccupancy (.ok .nonArray) logFails now st).1.success = false ∧
      (fetchOccupancy (.ok .nonArray) logFails now st).1.error
          = some "Invalid API response: expected array" ∧
      exitCode (fetchOccupancy (.ok .nonArray) logFails now st).1 = 1 ∧
      (fetchOccupancy (.ok .nonArray) logFails now st).2.locations = st.locations ∧
      (fetchOccupancy (.ok .nonArray) logFails now st).2.readings = st.readings ∧
      (fetchOccupancy (.ok .nonArray) logFails now st).2.snapshots = st.snapshots) ∧
    (∀ (logFails : Bool) (now : ℤ) (st : DbState),
      (fetchOccupancy (.ok (.arr [])) logFails now st).1.success = true ∧
      (fetchOccupancy (.ok (.arr [])) logFails now st).1.newReadings = 0 ∧
      (fetchOccupancy (.ok (.arr [])) logFails now st).2.locations = st.locations ∧
      (fetchOccupancy (.ok (.arr [])) logFails now st).2.readings = st.readings) := by
  constructor
  · intro logFails now st
    cases logFails <;>
      exact ⟨rfl, rfl, rfl, rfl, rfl, rfl⟩
  · intro logFails now st
    by_cases hs : shouldSaveSnapshot st now = true
    · simp [fetchOccupancy, ingestBatch, hs, saveSnapshot, logFetch]
    · simp [fetchOccupancy, ingestBatch, hs, logFetch]

/-- C9: on any exception during the cycle (arbitrary message e), the
coordinator reports failure with the original message, the one-shot
invocation exits non-zero, a failed fetch_log row (success 0, 0 locations,
0 new readings, the message) is appended when the logging write succeeds,
and a logging failure is swallowed — the original error is still reported
and no table is otherwise touched. -/
theorem error_propagation (e : String) (logFails : Bool) (now : ℤ) (st : DbState) :
    (fetchOccupancy (.error e) logFails now st).1.success = false ∧
    (fetchOccupancy (.error e) logFails now st).1.error = some e ∧
    exitCode (fetchOccupancy (.error e) logFails now st).1 = 1 ∧
    (fetchOccupancy (.error e) logFails now st).2.fetch_log
      = (if logFails then st.fetch_log
         else st.fetch_log ++
           [{ success := 0, locations_fetched := 0, new_readings := 0, error_msg := some e }]) ∧
    (fetchOccupancy (.error e) logFails now st).2.locations = st.locations ∧
    (fetchOccupancy (.error e) logFails now st).2.readings = st.readings ∧
    (fetchOccupancy (.error e) logFails now st).2.snapshots = st.snapshots := by
  cases logFails <;> exact ⟨rfl, rfl, rfl, rfl, rfl, rfl, rfl⟩

/-- C8: shouldSaveSnapshot holds exactly when no snapshot exists or the most
recent one is strictly older than one hour before now; it holds on a fresh
store, fails at any time up to one hour after a save, and holds again once
more than the hour has elapsed. -/
theorem snapshot_cadence :
    (∀ (st : DbState) (now : ℤ), shouldSaveSnapshot st now = true ↔
      (st.snapshots.getLast? = none ∨
        ∃ s, st.snapshots.getLast? = some s ∧ s.ts < now - 3600000)) ∧
    (∀ now : ℤ, shouldSaveSnapshot emptyDb now = true) ∧
    (∀ (data : List LocRecord) (t now : ℤ) (st : DbState), now ≤ t + 3600000 →
      shouldSaveSnapshot (saveSnapshot data t st) now = false) ∧
    (∀ (data : List LocRecord) (t now : ℤ) (st : DbState), t + 3600000 < now →
      shouldSaveSnapshot (saveSnapshot data t st) now = true) := by
  refine ⟨?_, fun now => rfl, ?_, ?_⟩
  · intro st now
    unfold shouldSaveSnapshot
    cases hl : st.snapshots.getLast? with
    | none => simp
    | some s =>
      simp only [hl, decide_eq_true_eq]
      constructor
      · intro h
        exact Or.inr ⟨s, rfl, h⟩
      · rintro (h | ⟨s2, hs2, h⟩)
        · cases h
        · cases hs2
          exact h
  · intro data t now st h
    unfold shouldSaveSnapshot saveSnapshot
    simp only [List.getLast?_concat, decide_eq_false_iff_not]
    omega
  · intro data t now st h
    unfold shouldSaveSnapshot saveSnapshot
    simp only [List.getLast?_concat, decide_eq_true_eq]
    omega

/-- C8 witness: fresh store at time 0; snapshot saved at time 0; the gate is
closed at time 3600000 (exactly one hour later) and open at 3600001. -/
theorem snapshot_cadence_witness :
    shouldSaveSnapshot emptyDb 0 = true ∧
    shouldSaveSnapshot (saveSnapshot [] 0 emptyDb) 3600000 = false ∧
    shouldSaveSnapshot (saveSnapshot [] 0 emptyDb) 3600001 = true :=
  ⟨snapshot_cadence.2.1 0,
   snapshot_cadence.2.2.1 [] 0 3600000 emptyDb (by decide),
   snapshot_cadence.2.2.2 [] 0 3600001 emptyDb (by decide)⟩

end CorecTracker
namespace CorecTracker

/-- C10: upserting an existing location id rewrites only that row's nine
mutable fields and updated_at; the row count, the row's location_id and its
created_at, and every row with a different id are left unchanged. -/
theorem upsert_frame (loc : LocRecord) (now : ℤ) (st : DbState)
    (h : ∃ l ∈ st.locations, l.location_id = loc.LocationId) :
    (upsertLocation loc now st).locations.length = st.locations.length ∧
    (∀ l ∈ st.locations, l.location_id ≠ loc.LocationId →
      l ∈ (upsertLocation loc now st).locations) ∧
    (∀ l ∈ st.locations, l.location_id = loc.LocationId →
      ∃ l2 ∈ (upsertLocation loc now st).locations,
        l2.location_id = l.location_id ∧ l2.created_at = l.created_at ∧
        mutFieldsEq loc now l2) := by
  unfold upsertLocation
  rw [if_pos h]
  refine ⟨List.length_map _ _, ?_, ?_⟩
  · intro l hl hne
    exact List.mem_map.mpr ⟨l, hl, by rw [if_neg hne]⟩
  · intro l hl heq
    refine ⟨applyLocUpdate loc now l, List.mem_map.mpr ⟨l, hl, by rw [if_pos heq]⟩,
      applyLocUpdate_location_id loc now l, applyLocUpdate_created_at loc now l,
      (applyLocUpdate_location_id loc now l).trans heq, rfl, rfl, rfl, rfl, rfl, rfl, rfl, rfl, rfl⟩

/-- C10 witness: a store holding location 1 (created at time 0), upserted
again at time 5 with a different name. -/
theorem upsert_frame_witness :
    ((upsertLocation (sampleRec 1 "New Name" 120 60 false tsMon1445) 5
        (upsertLocation (sampleRec 1 "Colby Fitness" 100 50 false tsMon1430) 0 emptyDb)).locations.length
      = (upsertLocation (sampleRec 1 "Colby Fitness" 100 50 false tsMon1430) 0 emptyDb).locations.length) ∧
    (∀ l ∈ (upsertLocation (sampleRec 1 "Colby Fitness" 100 50 false tsMon1430) 0 emptyDb).locations,
      l.location_id ≠ (sampleRec 1 "New Name" 120 60 false tsMon1445).LocationId →
      l ∈ (upsertLocation (sampleRec 1 "New Name" 120 60 false tsMon1445) 5
        (upsertLocation (sampleRec 1 "Colby Fitness" 100 50 false tsMon1430) 0 emptyDb)).locations) ∧
    (∀ l ∈ (upsertLocation (sampleRec 1 "Colby Fitness" 100 50 false tsMon1430) 0 emptyDb).locations,
      l.location_id = (sampleRec 1 "New Name" 120 60 false tsMon1445).LocationId →
      ∃ l2 ∈ (upsertLocation (sampleRec 1 "New Name" 120 60 false tsMon1445) 5
          (upsertLocation (sampleRec 1 "Colby Fitness" 100 50 false tsMon1430) 0 emptyDb)).locations,
        l2.location_id = l.location_id ∧ l2.created_at = l.created_at ∧
        mutFieldsEq (sampleRec 1 "New Name" 120 60 false tsMon1445) 5 l2) :=
  upsert_frame (sampleRec 1 "New Name" 120 60 false tsMon1445) 5
    (upsertLocation (sampleRec 1 "Colby Fitness" 100 50 false tsMon1430) 0 emptyDb)
    (by decide)

end CorecTracker
namespace CorecTracker

/-! ### Upsert last-write-wins machinery -/

theorem filter_map_update (L : List LocationRow) (i : ℤ)
    (h : L.Pairwise fun a b => a.location_id ≠ b.location_id)
    (f : LocationRow → LocationRow) (hf : ∀ l, (f l).location_id = l.location_id)
    (hex : ∃ l ∈ L, l.location_id = i) :
    ∃ l0, l0 ∈ L ∧ l0.location_id = i ∧
      ((L.map fun l => if l.location_id = i then f l else l).filter
        fun l => decide (l.location_id = i)) = [f l0] := by
  induction L with
  | nil => simp at hex
  | cons a t ih =>
    rw [List.pairwise_cons] at h
    by_cases hai : a.location_id = i
    · refine ⟨a, List.mem_cons_self a t, hai, ?_⟩
      have htail : ((t.map fun l => if l.location_id = i then f l else l).filter
          fun l => decide (l.location_id = i)) = [] := by
        rw [List.filter_eq_nil_iff]
        intro b hb
        obtain ⟨x, hx, rfl⟩ := List.mem_map.mp hb
        have hxi : x.location_id ≠ i := fun hxi => (h.1 x hx) (hai.trans hxi.symm)
        rw [if_neg hxi]
        simp [hxi]
      have hfa : (f a).location_id = i := by rw [hf a]; exact hai
      simp only [List.map_cons, if_pos hai, List.filter_cons, hfa, htail]
      simp
    · obtain ⟨l0, hl0, hl0i⟩ := hex
      rcases List.mem_cons.mp hl0 with rfl | hl0t
      · exact absurd hl0i hai
      obtain ⟨l1, hl1, hl1i, heq⟩ := ih h.2 ⟨l0, hl0t, hl0i⟩
      refine ⟨l1, List.mem_cons_of_mem _ hl1, hl1i, ?_⟩
      simp only [List.map_cons, if_neg hai, List.filter_cons]
      rw [if_neg (by simp [hai])]
      exact heq

theorem filter_map_other (L : List LocationRow) (i j : ℤ) (hj : j ≠ i)
    (f : LocationRow → LocationRow) (hf : ∀ l, (f l).location_id = l.location_id) :
    ((L.map fun l => if l.location_id = i then f l else l).filter
        fun l => decide (l.location_id = j)) = L.filter fun l => decide (l.location_id = j) := by
  induction L with
  | nil => rfl
  | cons a t ih =>
    simp only [List.map_cons, List.filter_cons]
    by_cases haj : a.location_id = j
    · have hai : ¬ a.location_id = i := by rw [haj]; exact hj
      rw [if_neg hai]
      simp [haj, ih]
    · by_cases hai : a.location_id = i
      · rw [if_pos hai]
        have hfj : ¬ (f a).location_id = j := by rw [hf a, hai]; exact fun hh => hj hh.symm
        simp [haj, hfj, ih]
      · rw [if_neg hai]
        simp [haj, ih]

theorem upsert_uniq (loc : LocRecord) (now : ℤ) (st : DbState)
    (h : st.locations.Pairwise fun a b => a.location_id ≠ b.location_id) :
    (upsertLocation loc now st).locations.Pairwise
      fun a b => a.location_id ≠ b.location_id := by
  unfold upsertLocation
  split
  · rw [List.pairwise_map]
    refine h.imp ?_
    intro a b hab
    have ha : ((if a.location_id = loc.LocationId then applyLocUpdate loc now a
        else a)).location_id = a.location_id := by split <;> rfl
    have hb : ((if b.location_id = loc.LocationId then applyLocUpdate loc now b
        else b)).location_id = b.location_id := by split <;> rfl
    rw [ha, hb]
    exact hab
  · rename_i hex
    rw [List.pairwise_append]
    refine ⟨h, List.pairwise_singleton _ _, ?_⟩
    intro a ha b hb
    rw [List.mem_singleton] at hb
    subst hb
    push_neg at hex
    exact hex a ha

theorem upsert_filter_target (loc : LocRecord) (now : ℤ) (st : DbState)
    (h : st.locations.Pairwise fun a b => a.location_id ≠ b.location_id) :
    ∃ r, ((upsertLocation loc now st).locations.filter
        fun l => decide (l.location_id = loc.LocationId)) = [r] ∧ mutFieldsEq loc now r := by
  unfold upsertLocation
  split
  · rename_i hex
    obtain ⟨l0, hl0, hl0i, heq⟩ := filter_map_update st.locations loc.LocationId h
      (applyLocUpdate loc now) (applyLocUpdate_location_id loc now) hex
    exact ⟨applyLocUpdate loc now l0, heq,
      (applyLocUpdate_location_id loc now l0).trans hl0i,
      rfl, rfl, rfl, rfl, rfl, rfl, rfl, rfl, rfl⟩
  · rename_i hex
    refine ⟨newLocationRow loc now, ?_, rfl, rfl, rfl, rfl, rfl, rfl, rfl, rfl, rfl, rfl⟩
    rw [List.filter_append]
    have h1 : st.locations.filter (fun l => decide (l.location_id = loc.LocationId)) = [] := by
      rw [List.filter_eq_nil_iff]
      intro a ha
      push_neg at hex
      simp [hex a ha]
    rw [h1]
    simp [newLocationRow]

theorem upsert_filter_other (loc : LocRecord) (now : ℤ) (st : DbState) (j : ℤ)
    (hj : j ≠ loc.LocationId) :
    ((upsertLocation loc now st).locations.filter fun l => decide (l.location_id = j)) =
      st.locations.filter fun l => decide (l.location_id = j) := by
  unfold upsertLocation
  split
  · exact filter_map_other st.locations loc.LocationId j hj
      (applyLocUpdate loc now) (applyLocUpdate_location_id loc now)
  · rw [List.filter_append]
    have h1 : ([newLocationRow loc now].filter fun l => decide (l.location_id = j)) = [] := by
      rw [List.filter_eq_nil_iff]
      intro a ha
      rw [List.mem_singleton] at ha
      subst ha
      simp only [newLocationRow, decide_eq_true_eq]
      exact fun hh => hj hh.symm
    rw [h1, List.append_nil]

theorem applyUpserts_uniq (calls : List (LocRecord × ℤ)) (st : DbState)
    (h : st.locations.Pairwise fun a b => a.location_id ≠ b.location_id) :
    (applyUpserts calls st).locations.Pairwise
      fun a b => a.location_id ≠ b.location_id := by
  induction calls generalizing st with
  | nil => exact h
  | cons c rest ih => exact ih _ (upsert_uniq c.1 c.2 st h)

theorem applyUpserts_filter_absent (calls : List (LocRecord × ℤ)) (st : DbState) (i : ℤ)
    (h : ∀ c ∈ calls, c.1.LocationId ≠ i) :
    ((applyUpserts calls st).locations.filter fun l => decide (l.location_id = i)) =
      st.locations.filter fun l => decide (l.location_id = i) := by
  induction calls generalizing st with
  | nil => rfl
  | cons c rest ih =>
    rw [applyUpserts]
    rw [ih _ (fun c2 h2 => h c2 (List.mem_cons_of_mem c h2))]
    exact upsert_filter_other c.1 c.2 st i
      (fun he => (h c (List.mem_cons_self c rest)) he.symm)

theorem lastFor_cons_of_isSome (i : ℤ) (c : LocRecord × ℤ) (rest : List (LocRecord × ℤ))
    (h : (lastFor i rest).isSome) : lastFor i (c :: rest) = lastFor i rest := by
  unfold lastFor at h ⊢
  rw [List.filter_cons]
  split
  · cases hl : rest.filter (fun c2 => decide (c2.1.LocationId = i)) with
    | nil => rw [hl] at h; simp at h
    | cons x xs => exact List.getLast?_cons_cons
  · rfl

theorem lastFor_eq_none_iff (i : ℤ) (calls : List (LocRecord × ℤ)) :
    lastFor i calls = none ↔ ∀ c ∈ calls, c.1.LocationId ≠ i := by
  unfold lastFor
  rw [List.getLast?_eq_none_iff, List.filter_eq_nil_iff]
  simp

/-- C5: for any sequence of upsertLocation calls over a store whose location
ids are unique, if the last call for id i is (record, clock) then the store
ends with exactly one Location row with that id, and all its mutable fields
(display name trimmed, as the engine stores it) and updated_at come from
that last call. -/
theorem upsert_last_write_wins (calls : List (LocRecord × ℤ)) (st0 : DbState) (i : ℤ)
    (c0 : LocRecord × ℤ)
    (huniq : st0.locations.Pairwise fun a b => a.location_id ≠ b.location_id)
    (hlast : lastFor i calls = some c0) :
    ∃ r, ((applyUpserts calls st0).locations.filter
        fun l => decide (l.location_id = i)) = [r] ∧ mutFieldsEq c0.1 c0.2 r := by
  induction calls generalizing st0 with
  | nil => cases hlast
  | cons c rest ih =>
    rw [applyUpserts]
    cases hr : lastFor i rest with
    | some c1 =>
      have hsome : (lastFor i rest).isSome := by rw [hr]; rfl
      rw [lastFor_cons_of_isSome i c rest hsome, hr] at hlast
      cases hlast
      exact ih (upsertLocation c.1 c.2 st0) (upsert_uniq c.1 c.2 st0 huniq) hr
    | none =>
      have habs : ∀ c2 ∈ rest, c2.1.LocationId ≠ i := (lastFor_eq_none_iff i rest).mp hr
      have hfrest : rest.filter (fun c2 => decide (c2.1.LocationId = i)) = [] := by
        rw [List.filter_eq_nil_iff]
        intro c2 hc2
        simp [habs c2 hc2]
      have hc : c.1.LocationId = i := by
        by_contra hcn
        have : lastFor i (c :: rest) = none := by
          unfold lastFor
          rw [List.filter_cons, if_neg (by simp [hcn]), hfrest]
          rfl
        rw [this] at hlast
        cases hlast
      have hc0 : c0 = c := by
        unfold lastFor at hlast
        rw [List.filter_cons, if_pos (by simp [hc]), hfrest] at hlast
        cases hlast
        rfl
      rw [applyUpserts_filter_absent rest _ i habs, hc0, ← hc]
      exact upsert_filter_target c.1 c.2 st0 huniq

/-- C5 witness: on a fresh store, upsert id 7 with name "A" at time 0 and
then id 7 with name "B" at time 1: exactly one row with id 7 remains and its
fields are those of the second call. -/
theorem upsert_last_write_wins_witness :
    ∃ r, ((applyUpserts
        [(sampleRec 7 "A" 100 50 false tsMon1430, 0),
         (sampleRec 7 "B" 100 50 false tsMon1430, 1)] emptyDb).locations.filter
      fun l => decide (l.location_id = 7)) = [r] ∧
      mutFieldsEq (sampleRec 7 "B" 100 50 false tsMon1430) 1 r :=
  upsert_last_write_wins
    [(sampleRec 7 "A" 100 50 false tsMon1430, 0),
     (sampleRec 7 "B" 100 50 false tsMon1430, 1)]
    emptyDb 7 (sampleRec 7 "B" 100 50 false tsMon1430, 1)
    List.Pairwise.nil (by decide)

end CorecTracker
namespace CorecTracker

/-- C6: every row getOptimalTimes returns has at least 2 samples; every
aggregated group with 2 or more samples reaches the sorted candidate list,
and reaches the output whenever the limit admits all candidates.  Concretely,
in stFloor the one-sample Tuesday group of location 2 is absent and the
two-sample Monday group of location 1 is the sole output row. -/
theorem optimal_times_sample_floor :
    (∀ (filt : Option String) (limit : ℕ) (st : DbState) (g : OptimalRow),
      g ∈ getOptimalTimes filt limit st → 2 ≤ g.samples) ∧
    (∀ (filt : Option String) (st : DbState) (g : OptimalRow),
      g ∈ optimalGroups filt st → 2 ≤ g.samples → g ∈ optimalCandidates filt st) ∧
    (∀ (filt : Option String) (limit : ℕ) (st : DbState),
      (optimalCandidates filt st).length ≤ limit →
      ∀ g ∈ optimalCandidates filt st, g ∈ getOptimalTimes filt limit st) ∧
    getOptimalTimes none 20 stFloor =
      [{ location_name := "Colby Fitness", total_capacity := 100, day_of_week := 1,
         hour := 14, avg_pct_tenths := 500, avg_count := 50, min_pct := 40,
         max_pct := 60, samples := 2 }] := by
  refine ⟨?_, ?_, ?_, by decide⟩
  · intro filt limit st g hg
    have h1 : g ∈ optimalCandidates filt st := List.take_subset limit _ hg
    unfold optimalCandidates at h1
    rw [List.mem_insertionSort] at h1
    exact of_decide_eq_true (List.mem_filter.mp h1).2
  · intro filt st g hg hs
    unfold optimalCandidates
    rw [List.mem_insertionSort]
    exact List.mem_filter.mpr ⟨hg, decide_eq_true hs⟩
  · intro filt limit st hlen g hg
    unfold getOptimalTimes
    rw [List.take_of_length_le hlen]
    exact hg

/-- C6 witness: the sole row returned on stFloor indeed has 2 samples. -/
theorem optimal_times_sample_floor_witness :
    2 ≤ ({ location_name := "Colby Fitness", total_capacity := 100, day_of_week := 1,
           hour := 14, avg_pct_tenths := 500, avg_count := 50, min_pct := 40,
           max_pct := 60, samples := 2 } : OptimalRow).samples :=
  optimal_times_sample_floor.1 none 20 stFloor _ (by decide)

/-- C7: getOptimalTimes output is sorted ascending by average percentage and
holds at most limit rows; concretely for stOrder, whose three groups average
80, 45 and 10 percent with the busiest first in input order, the output
averages (in tenths of a percent) are [100, 450, 800], i.e. [10, 45, 80]. -/
theorem optimal_times_ordering :
    (∀ (filt : Option String) (limit : ℕ) (st : DbState),
      (getOptimalTimes filt limit st).Sorted byAvgPct) ∧
    (∀ (filt : Option String) (limit : ℕ) (st : DbState),
      (getOptimalTimes filt limit st).length ≤ limit) ∧
    (getOptimalTimes none 20 stOrder).map (fun g => g.avg_pct_tenths)
      = [100, 450, 800] := by
  refine ⟨?_, ?_, by decide⟩
  · intro filt limit st
    exact List.Pairwise.sublist (List.take_sublist _ _)
      (List.sorted_insertionSort byAvgPct _)
  · intro filt limit st
    exact List.length_take_le _ _

end CorecTracker
